import Mathlib

/-!
Verification development for the IoT login-anomaly pipeline
(`session.py`: `add_features`, `detect_anomalies`; ingestion boundary in
`app.py` is out of core scope).

Conventions of the embedding:
* A login event carries the six input columns; timestamps are epoch seconds
  (the source converts `ts` to `int64 // 10**9`), so `ts : Int`.
* `success` is the 0/1 integer column of the source (`int(bool(...))` at the
  boundary, integer comparisons `== 1` and arithmetic means in the core).
* Data frames are lists of rows in arrival order; `df.copy()` followed by
  column assignments is modelled by building new rows, leaving the input list
  untouched.
* Floating point arithmetic of the source is modelled exactly over `ℚ`
  (and over `ℝ` where the score normalisation `2 ^ (-x)` appears).
-/

/-- One row of the input login log: columns `ts, user, device, ip, country,
success` (`session.py`, `make_toy_login_log` / `FIELDNAMES` of `app.py`).
`ts` is in epoch seconds, `success` is the 0/1 integer column. -/
structure LoginEvent where
  ts : Int
  user : String
  device : String
  ip : String
  country : String
  success : Int
deriving DecidableEq, Repr

/-- Column `minute`, from `out["minute"] = out["ts"].dt.floor("min")`: floor the second-precision
timestamp to its minute (toward negative infinity, as pandas does). -/
def minuteFloor (t : Int) : Int := t - t.emod 60

/-- The `(user, minute)` group of `out.groupby(["user", "minute"])`: all rows of
the batch with the given user and the given floored minute. -/
def windowRows (df : List LoginEvent) (u : String) (m : Int) : List LoginEvent :=
  df.filter (fun e => decide (e.user = u ∧ minuteFloor e.ts = m))

/-- Sum of the 0/1 `success` column over a list of rows, as a rational
(the numerator of `s.mean()`). -/
def sumSuccess (l : List LoginEvent) : ℚ :=
  (l.map (fun e => (e.success : ℚ))).sum

/-- Aggregate `attempts=("success", "size")`: the size of the `(user, minute)` group. -/
def attemptsAgg (df : List LoginEvent) (u : String) (m : Int) : Nat :=
  (windowRows df u m).length

/-- Aggregate `fail_ratio=("success", lambda s: 1 - s.mean())` over the group. -/
def failRatioAgg (df : List LoginEvent) (u : String) (m : Int) : ℚ :=
  1 - sumSuccess (windowRows df u m) / ((windowRows df u m).length : ℚ)

/-- Aggregate `uniq_ips=("ip", "nunique")`: distinct ip values within the group. -/
def uniqIpsAgg (df : List LoginEvent) (u : String) (m : Int) : Nat :=
  ((windowRows df u m).map LoginEvent.ip).dedup.length

/-- Aggregate `uniq_devices=("device", "nunique")` over the group. -/
def uniqDevicesAgg (df : List LoginEvent) (u : String) (m : Int) : Nat :=
  ((windowRows df u m).map LoginEvent.device).dedup.length

/-- Aggregate `uniq_countries=("country", "nunique")` over the group. -/
def uniqCountriesAgg (df : List LoginEvent) (u : String) (m : Int) : Nat :=
  ((windowRows df u m).map LoginEvent.country).dedup.length

/-- The per-user cursor state of the `last_success` dict: the timestamp of the
most recently processed successful login of each user, absent initially. -/
def updState (last : String → Option Int) (e : LoginEvent) : String → Option Int :=
  if e.success = 1 then fun u => if u = e.user then some e.ts else last u else last

/-- The loop `for _, row in out.iterrows(): ...` computing
`secs_since_last_success`, threading the `last_success` dict.  The value
appended for a row is `0` when the dict has no entry for the user and
`t - prev` otherwise; the dict entry is written after the value, only when
`row["success"] == 1`. -/
def secsAux (last : String → Option Int) : List LoginEvent → List Int
  | [] => []
  | e :: rest =>
      (match last e.user with
        | none => 0
        | some p => e.ts - p) :: secsAux (updState last e) rest

/-- Column `secs_since_last_success`: the loop starts from an empty dict and
visits the rows of the working frame in their stored (arrival) order — the
source performs no sort, and the left merge at line 82 preserves row order. -/
def secsList (df : List LoginEvent) : List Int := secsAux (fun _ => none) df

/-- The state of the `last_success` dict after a prefix of the pass. -/
def foldState (last : String → Option Int) : List LoginEvent → String → Option Int
  | [] => last
  | e :: rest => foldState (updState last e) rest

/-- Count `uc_count`: total occurrences of the row's `(user, country)` pair across
the entire batch (`out.groupby(["user", "country"]).size()` joined back). -/
def ucCount (df : List LoginEvent) (u c : String) : Nat :=
  (df.filter (fun e => decide (e.user = u ∧ e.country = c))).length

/-- Count `ud_count`: total occurrences of the row's `(user, device)` pair across
the entire batch. -/
def udCount (df : List LoginEvent) (u d : String) : Nat :=
  (df.filter (fun e => decide (e.user = u ∧ e.device = d))).length

/-- One enriched row produced by `add_features`.  The two trigonometric
columns `hour_sin`/`hour_cos` (pure per-row encodings of `hour`, lines 67-68)
are not carried in the model: no verified property mentions them, and they are
transcendental reals.  The self-join counts always match at least the row
itself, so the `fillna(0)` of lines 101 and 112 never fires on these fields. -/
structure FeatRow where
  ev : LoginEvent
  minute : Int
  hour : Int
  attempts : Nat
  fail_ratio : ℚ
  uniq_ips : Nat
  uniq_devices : Nat
  uniq_countries : Nat
  secs_since_last_success : Int
  rare_country_for_user : Nat
  rare_device_for_user : Nat
deriving DecidableEq, Repr

/-- Assembly of one output row of `add_features`: the window aggregates are the
merged group statistics for the row's `(user, minute)` key, the rarity flags
compare the whole-batch pair counts with 3 (lines 102-103), and the cursor
value is supplied by the sequential pass. -/
def mkFeatRow (df : List LoginEvent) (e : LoginEvent) (secs : Int) : FeatRow :=
  let m := minuteFloor e.ts
  { ev := e
    minute := m
    hour := (e.ts.ediv 3600).emod 24
    attempts := attemptsAgg df e.user m
    fail_ratio := failRatioAgg df e.user m
    uniq_ips := uniqIpsAgg df e.user m
    uniq_devices := uniqDevicesAgg df e.user m
    uniq_countries := uniqCountriesAgg df e.user m
    secs_since_last_success := secs
    rare_country_for_user := if ucCount df e.user e.country < 3 then 1 else 0
    rare_device_for_user := if udCount df e.user e.device < 3 then 1 else 0 }

/-- Feature extraction `add_features` (`session.py` lines 57-113): works on a copy of the caller
frame, computes the minute key, the five `(user, minute)` window aggregates
(merged back onto every row of the group), the sequential
`secs_since_last_success` pass in stored row order, and the whole-batch rarity
flags.  Output rows stay in input order, one per input row. -/
def add_features (df : List LoginEvent) : List FeatRow :=
  (df.zip (secsList df)).map (fun p => mkFeatRow df p.1 p.2)

/-- The cursor computation as the specification words it (§4.1 steps (1) and
(5)): sort a working copy by timestamp ascending, fold the cursor over the
sorted copy, then re-project the values onto the original input order.  The
source contains no such sort; this definition exists to compare the
specification reading with the source behaviour. -/
def secsListSortedSpec (df : List LoginEvent) : List Int :=
  let indexed := df.enum
  let sorted := List.insertionSort (fun a b => a.2.ts ≤ b.2.ts) indexed
  let vals := secsList (sorted.map Prod.snd)
  (List.range df.length).map (fun i =>
    (List.lookup i ((sorted.map Prod.fst).zip vals)).getD 0)

/-!
Scoring and flagging (`detect_anomalies`, `session.py` lines 117-146).

The isolation-forest ensemble itself is the external library call
`IsolationForest(n_estimators=300, contamination=contamination,
random_state=seed).fit(X)`; its numeric internals are not repository source.
The combiner below therefore takes the per-batch score list through an
abstract `engine` parameter, while the library call's documented input
validation (contamination must lie in `(0, 0.5]` when given as a number, and
fitting an empty sample is rejected) is modelled explicitly: these are the
only failure points of `detect_anomalies`.
-/

/-- Failure of `detect_anomalies`: the `ValueError` raised inside the external
`IsolationForest.fit` call — the repository defines no error type of its own. -/
inductive PipelineError where
  | invalidParameter
  | emptySample
deriving DecidableEq, Repr

/-- Embedding of `np.quantile(scores, q)` with the default linear interpolation: sort
ascending, take `h = q * (n - 1)`, and interpolate between the values at
positions `floor h` and `floor h + 1`. -/
def quantileLinear {α : Type} [LinearOrderedField α] [FloorRing α]
    (scores : List α) (q : α) : α :=
  let s := List.insertionSort (fun a b => a ≤ b) scores
  let h := q * ((s.length : α) - 1)
  let i := (Int.floor h).toNat
  let p := s.getD i 0
  p + (h - (i : α)) * (s.getD (i + 1) p - p)

/-- Line 142: `((df_out["fail_ratio"] > 0.8) & (df_out["uniq_ips"] >= 5)).astype(int)`
evaluated on a single row. -/
def ruleFlag (r : FeatRow) : Nat :=
  if 4 / 5 < r.fail_ratio ∧ 5 ≤ r.uniq_ips then 1 else 0

/-- The fixed order of the numeric feature columns (`feat_cols`, lines
106-111) used to build the matrix `X`; the two trigonometric hour columns are
omitted from the model (see `FeatRow`). -/
def featVec (r : FeatRow) : List ℚ :=
  [(r.attempts : ℚ), r.fail_ratio, (r.uniq_ips : ℚ), (r.uniq_devices : ℚ),
   (r.uniq_countries : ℚ), (r.secs_since_last_success : ℚ),
   (r.rare_country_for_user : ℚ), (r.rare_device_for_user : ℚ)]

/-- One output row of `detect_anomalies`: the enriched feature row plus the
`anomaly_score`, `ml_flag`, `rule_flag` and `final_flag` columns. -/
structure OutRow (α : Type) where
  feat : FeatRow
  anomaly_score : α
  ml_flag : Nat
  rule_flag : Nat
  final_flag : Nat
deriving DecidableEq

/-- Scoring `detect_anomalies` (lines 117-146).  The external fit call validates its
parameters (a numeric contamination outside `(0, 0.5]`, or an empty sample,
raises `ValueError` before any output exists); on success `scores` is the
negated `score_samples` vector delivered by the library (`engine`), the
threshold is the linear-interpolation `(1 - contamination)` quantile of
`scores`, `ml_flag` compares each score against the threshold, `rule_flag`
is the line-142 rule, and `final_flag` is their bitwise or on 0/1 integers.
The score type `α` is a parameter so the same combiner serves the exact
rational development and the real-valued ensemble model. -/
def detect_anomalies (α : Type) [LinearOrderedField α] [FloorRing α]
    (engine : List (List ℚ) → List α) (df_feat : List FeatRow)
    (contamination : ℚ) : Except PipelineError (List (OutRow α)) :=
  if ¬ (0 < contamination ∧ contamination ≤ 1 / 2) then
    .error .invalidParameter
  else if df_feat.length = 0 then
    .error .emptySample
  else
    let scores := engine (df_feat.map featVec)
    let thr := quantileLinear scores (((1 : ℚ) - contamination : ℚ) : α)
    .ok ((df_feat.zip scores).map (fun p =>
      let ml : Nat := if thr ≤ p.2 then 1 else 0
      let rf : Nat := ruleFlag p.1
      { feat := p.1
        anomaly_score := p.2
        ml_flag := ml
        rule_flag := rf
        final_flag := if ml = 1 ∨ rf = 1 then 1 else 0 }))

/-!
Isolation Forest Engine, modelled from the specification.

The repository delegates the ensemble to the external
`sklearn.ensemble.IsolationForest`; no tree construction, sampling or score
normalisation exists under `src/`.  The definitions below are therefore
modelled from the specification (§4.2 and §5): explicit seeded generator,
per-tree sub-generator, subsample without replacement, uniform feature and
threshold draws among the non-degenerate dimensions, depth cap
`ceil(log2 subsample_size)`, harmonicNum-number leaf correction, and the score
normalisation `2 ^ (-avg_path_length / c(subsample_size))`.
-/

/-- Modelled from the spec: the single seeded pseudo-random generator (§4.2
Determinism).  A linear congruential step over 31-bit states stands in for the
library generator; every random draw of the engine is derived from it. -/
def lcgNext (s : Nat) : Nat := (s * 1103515245 + 12345) % 2147483648

/-- Modelled from the spec: a draw uniform on `[0, 1)` from the generator
state, as a rational with denominator `2^31`. -/
def lcgUnit (s : Nat) : ℚ := (s : ℚ) / 2147483648

/-- Remove the element at an index (used by sampling without replacement). -/
def removeAt {α : Type} (xs : List α) (i : Nat) : List α :=
  xs.take i ++ xs.drop (i + 1)

/-- Modelled from the spec: draw `k` vectors without replacement — each step
picks a uniformly random remaining element and removes it.  Returns the sample
and the advanced generator state. -/
def subsample (k : Nat) (xs : List (List ℚ)) (s : Nat) : List (List ℚ) × Nat :=
  match k with
  | 0 => ([], s)
  | k' + 1 =>
      match xs with
      | [] => ([], s)
      | _ =>
          let s' := lcgNext s
          let i := s' % xs.length
          let x := (xs.get? i).getD []
          let rec_ := subsample k' (removeAt xs i) s'
          (x :: rec_.1, rec_.2)

/-- Value of feature `j` of a vector (vectors are feature lists). -/
def featAt (v : List ℚ) (j : Nat) : ℚ := (v.get? j).getD 0

/-- Minimum of a list of rationals (0 on the empty list, never used there). -/
def qmin : List ℚ → ℚ
  | [] => 0
  | x :: xs => xs.foldl min x

/-- Maximum of a list of rationals. -/
def qmax : List ℚ → ℚ
  | [] => 0
  | x :: xs => xs.foldl max x

/-- An isolation tree: internal nodes carry the chosen feature index and split
threshold, leaves carry the count of training points that reached them (§3). -/
inductive ITree where
  | leaf (count : Nat)
  | node (feature : Nat) (threshold : ℚ) (left : ITree) (right : ITree)
deriving DecidableEq, Repr

/-- Modelled from the spec: recursive tree construction.  A node with at most
one point, or at the depth cap, or with no feature of non-degenerate range,
becomes a leaf holding its point count; otherwise a feature is drawn uniformly
among the non-degenerate dimensions, a threshold uniformly within its observed
range, and points split into `< threshold` (left) and `≥ threshold` (right). -/
def buildTree (d : Nat) : Nat → List (List ℚ) → Nat → ITree × Nat
  | 0, pts, s => (.leaf pts.length, s)
  | depth + 1, pts, s =>
      if pts.length ≤ 1 then (.leaf pts.length, s)
      else
        let cands := (List.range d).filter
          (fun j => decide (qmin (pts.map (featAt · j)) < qmax (pts.map (featAt · j))))
        match cands with
        | [] => (.leaf pts.length, s)
        | _ =>
            let s1 := lcgNext s
            let j := (cands.get? (s1 % cands.length)).getD 0
            let s2 := lcgNext s1
            let a := qmin (pts.map (featAt · j))
            let b := qmax (pts.map (featAt · j))
            let t := a + lcgUnit s2 * (b - a)
            let lt := buildTree d depth (pts.filter (fun v => decide (featAt v j < t))) s2
            let rt := buildTree d depth (pts.filter (fun v => decide (¬ featAt v j < t))) lt.2
            (.node j t lt.1 rt.1, rt.2)

/-- Depth bound `ceil(log2 n)` for `n ≥ 1`: the spec's fixed maximum tree depth. -/
def ceilLog2 (n : Nat) : Nat := if n ≤ 1 then 0 else Nat.log2 (n - 1) + 1

/-- An ensemble of isolation trees plus the subsample size used to build them
(§3), immutable after construction. -/
structure Forest where
  trees : List ITree
  psi : Nat
deriving DecidableEq, Repr

/-- Modelled from the spec: configuration failure of `fit` (§4.2/§7). -/
inductive IsoError where
  | invalidConfiguration
deriving DecidableEq, Repr

/-- Harmonic number `H(i)`, exactly over `ℚ`. -/
def harmonicNum : Nat → ℚ
  | 0 => 0
  | n + 1 => harmonicNum n + 1 / (n + 1)

/-- The expected extra depth `c(m) = 2 H(m-1) - 2 (m-1)/m` for `m > 1`,
`0` for `m ≤ 1` (§4.2). -/
def cFactor (m : Nat) : ℚ :=
  if m ≤ 1 then 0 else 2 * harmonicNum (m - 1) - 2 * ((m : ℚ) - 1) / m

/-- Modelled from the spec: `fit(vectors, tree_count, subsample_size, seed)`.
Rejects `subsample_size < 2`, `subsample_size > len(vectors)` and
`tree_count < 1`; otherwise builds `tree_count` trees, each from its own
sub-generator seeded from the shared seed and the tree index (§5). -/
def fitForest (vectors : List (List ℚ)) (tree_count subsample_size seed : Nat) :
    Except IsoError Forest :=
  if subsample_size < 2 ∨ vectors.length < subsample_size ∨ tree_count < 1 then
    .error .invalidConfiguration
  else
    let d := ((vectors.get? 0).getD []).length
    .ok { trees := (List.range tree_count).map (fun t =>
            let s0 := lcgNext (seed + t)
            let samp := subsample subsample_size vectors s0
            (buildTree d (ceilLog2 subsample_size) samp.1 samp.2).1)
          psi := subsample_size }

/-- Path length of a vector in a tree: edges traversed to the leaf, plus the
leaf-size correction `c(leaf_size)` (0 for leaves of at most one point). -/
def pathLength (v : List ℚ) : ITree → ℚ
  | .leaf m => cFactor m
  | .node j t l r => 1 + (if featAt v j < t then pathLength v l else pathLength v r)

/-- Average path length of a vector across the trees of a forest. -/
def avgPath (f : Forest) (v : List ℚ) : ℚ :=
  ((f.trees.map (pathLength v)).sum) / (f.trees.length : ℚ)

/-- Modelled from the spec: the per-point anomaly score
`2 ^ (-avg_path_length / c(subsample_size))` (§4.2). -/
noncomputable def isoScore (f : Forest) (v : List ℚ) : ℝ :=
  (2 : ℝ) ^ (-(((avgPath f v) / (cFactor f.psi) : ℚ) : ℝ))

/-- Scoring `score(forest, vectors)`: one score per input vector, in input order. -/
noncomputable def scoreForest (f : Forest) (vectors : List (List ℚ)) : List ℝ :=
  vectors.map (isoScore f)

/-- The whole fit-and-score pipeline of `detect_anomalies` with the modelled
engine plugged in: `n_estimators=300` (line 129), the library default
subsample size `min(256, N)`, and `random_state=seed` (line 131) as the
generator seed. -/
noncomputable def detect_anomalies_run (df_feat : List FeatRow) (contamination : ℚ)
    (seed : Nat) : Except PipelineError (List (OutRow ℝ)) :=
  match fitForest (df_feat.map featVec) 300 (min 256 df_feat.length) seed with
  | .error _ => .error .invalidParameter
  | .ok f => detect_anomalies ℝ (fun x => scoreForest f x) df_feat contamination

/-!
Helper lemmas about the sequential cursor pass.
-/

/-- The timestamp of the most recent success of user `u` within a prefix of
the pass: the last element of the prefix filtered to successes of `u`. -/
def lastSuccessTs (pre : List LoginEvent) (u : String) : Option Int :=
  ((pre.filter (fun e => decide (e.user = u ∧ e.success = 1))).getLast?).map LoginEvent.ts

theorem secsAux_length (l : List LoginEvent) :
    ∀ last, (secsAux last l).length = l.length := by
  induction l with
  | nil => intro last; rfl
  | cons e rest ih => intro last; simp [secsAux, ih]

theorem secsList_length (df : List LoginEvent) : (secsList df).length = df.length :=
  secsAux_length df _

theorem foldState_append (a b : List LoginEvent) :
    ∀ last, foldState last (a ++ b) = foldState (foldState last a) b := by
  induction a with
  | nil => intro last; rfl
  | cons e a' ih => intro last; simp [foldState, ih]

theorem secsAux_append_getElem? (pre : List LoginEvent) :
    ∀ (last : String → Option Int) (e : LoginEvent) (suf : List LoginEvent),
      (secsAux last (pre ++ e :: suf))[pre.length]? =
        some (match foldState last pre e.user with
          | none => 0
          | some p => e.ts - p) := by
  induction pre with
  | nil => intro last e suf; simp [secsAux, foldState]
  | cons x pre' ih =>
      intro last e suf
      simpa [secsAux, foldState] using ih (updState last x) e suf

theorem foldState_eq_lastSuccessTs (pre : List LoginEvent) :
    ∀ (last : String → Option Int) (u : String),
      foldState last pre u =
        match lastSuccessTs pre u with
        | none => last u
        | some t => some t := by
  induction pre with
  | nil => intro last u; simp [foldState, lastSuccessTs]
  | cons e pre' ih =>
      intro last u
      have hstep : foldState last (e :: pre') u = foldState (updState last e) pre' u := rfl
      rw [hstep, ih]
      by_cases hPe : e.user = u ∧ e.success = 1
      · have hfe : (fun x => decide (x.user = u ∧ x.success = 1)) e = true := by
          simp only [decide_eq_true_iff]; exact hPe
        have hfil : List.filter (fun x => decide (x.user = u ∧ x.success = 1)) (e :: pre')
            = e :: List.filter (fun x => decide (x.user = u ∧ x.success = 1)) pre' := by
          rw [List.filter_cons, if_pos hfe]
        have hupd : updState last e u = some e.ts := by
          have hs := hPe.2
          have hu : u = e.user := hPe.1.symm
          simp [updState, hs, hu]
        rcases hF : (pre'.filter (fun x => decide (x.user = u ∧ x.success = 1))) with _ | ⟨f, F'⟩
        · have h1 : lastSuccessTs pre' u = none := by
            simp only [lastSuccessTs, hF]; rfl
          have h2 : lastSuccessTs (e :: pre') u = some e.ts := by
            simp only [lastSuccessTs, hfil, hF]; rfl
          rw [h1, h2, hupd]
        · obtain ⟨y, hy⟩ : ∃ y, (f :: F').getLast? = some y := by
            cases hgl : (f :: F').getLast? with
            | none => exact absurd hgl (by simp)
            | some y => exact ⟨y, rfl⟩
          have h1 : lastSuccessTs pre' u = some y.ts := by
            simp only [lastSuccessTs, hF, hy]; rfl
          have h2 : lastSuccessTs (e :: pre') u = some y.ts := by
            simp only [lastSuccessTs, hfil, hF, List.getLast?_cons_cons, hy]; rfl
          rw [h1, h2]
      · have hfe : (fun x => decide (x.user = u ∧ x.success = 1)) e = false := by
          simp only [decide_eq_false_iff_not]; exact hPe
        have hfe' : ¬ ((fun x => decide (x.user = u ∧ x.success = 1)) e = true) := by
          rw [hfe]; exact Bool.false_ne_true
        have hfil : List.filter (fun x => decide (x.user = u ∧ x.success = 1)) (e :: pre')
            = List.filter (fun x => decide (x.user = u ∧ x.success = 1)) pre' := by
          rw [List.filter_cons, if_neg hfe']
        have hupd : updState last e u = last u := by
          by_cases hs : e.success = 1
          · have hu : u ≠ e.user := fun h => hPe ⟨h.symm, hs⟩
            simp [updState, hs, hu]
          · simp [updState, hs]
        have h2 : lastSuccessTs (e :: pre') u = lastSuccessTs pre' u := by
          simp only [lastSuccessTs, hfil]
        rw [h2, hupd]

theorem secsList_getElem? (df : List LoginEvent) (i : Nat) (e : LoginEvent)
    (he : df[i]? = some e) :
    (secsList df)[i]? =
      some (match lastSuccessTs (df.take i) e.user with
        | none => 0
        | some t => e.ts - t) := by
  have hi : i < df.length := by
    by_contra hlt
    rw [List.getElem?_eq_none (Nat.le_of_not_lt hlt)] at he
    exact Option.noConfusion he
  have hsplit : df = df.take i ++ e :: df.drop (i + 1) := by
    have h1 := List.take_append_drop i df
    have h2 := List.drop_eq_getElem_cons hi
    have h3 : df[i] = e := by
      have := List.getElem?_eq_getElem hi
      rw [this] at he
      exact Option.some.inj he
    rw [h3] at h2
    rw [h2] at h1
    exact h1.symm
  have hlen : (df.take i).length = i := by
    simp [List.length_take, Nat.min_eq_left (Nat.le_of_lt hi)]
  calc (secsList df)[i]? = (secsAux (fun _ => none) (df.take i ++ e :: df.drop (i + 1)))[(df.take i).length]? := by
        rw [← hsplit, hlen]; rfl
    _ = some (match foldState (fun _ => none) (df.take i) e.user with
          | none => 0
          | some p => e.ts - p) := secsAux_append_getElem? _ _ _ _
    _ = some (match lastSuccessTs (df.take i) e.user with
          | none => 0
          | some t => e.ts - t) := by
        rw [foldState_eq_lastSuccessTs]
        rcases lastSuccessTs (df.take i) e.user with _ | t <;> rfl

/-!
Indexing helpers for `add_features` and for the re-projection step of the
specification's sorted reading.
-/

theorem zip_getElem?_eq {α β : Type} (l₁ : List α) :
    ∀ (l₂ : List β) (i : Nat) (p : α × β), (l₁.zip l₂)[i]? = some p →
      l₁[i]? = some p.1 ∧ l₂[i]? = some p.2 := by
  induction l₁ with
  | nil => intro l₂ i p h; simp [List.zip] at h
  | cons a l₁' ih =>
      intro l₂ i p h
      cases l₂ with
      | nil => simp [List.zip] at h
      | cons b l₂' =>
          cases i with
          | zero =>
              simp only [List.zip_cons_cons, List.getElem?_cons_zero, Option.some.injEq] at h
              subst h
              constructor <;> simp
          | succ j =>
              simp only [List.zip_cons_cons, List.getElem?_cons_succ] at h ⊢
              exact ih l₂' j p h

theorem add_features_length (df : List LoginEvent) :
    (add_features df).length = df.length := by
  simp [add_features, List.length_zip, secsList_length]

theorem add_features_shape (df : List LoginEvent) (i : Nat) (r : FeatRow)
    (h : (add_features df)[i]? = some r) :
    ∃ e s, df[i]? = some e ∧ (secsList df)[i]? = some s ∧ r = mkFeatRow df e s := by
  rw [add_features, List.getElem?_map] at h
  rcases Option.map_eq_some'.mp h with ⟨p, hp, hfp⟩
  rcases zip_getElem?_eq df (secsList df) i p hp with ⟨h1, h2⟩
  exact ⟨p.1, p.2, h1, h2, hfp.symm⟩

theorem add_features_map_ev (df : List LoginEvent) :
    (add_features df).map FeatRow.ev = df := by
  have hlen : df.length ≤ (secsList df).length := by rw [secsList_length]
  calc (add_features df).map FeatRow.ev
      = (df.zip (secsList df)).map (fun p => (mkFeatRow df p.1 p.2).ev) := by
        rw [add_features, List.map_map]; rfl
    _ = (df.zip (secsList df)).map Prod.fst := by
        apply List.map_congr_left; intro p _; rfl
    _ = df := List.map_fst_zip df (secsList df) hlen

theorem lookup_range'_zip (l : List Int) :
    ∀ (s i : Nat), i < l.length →
      List.lookup (s + i) ((List.range' s l.length).zip l) = l[i]? := by
  induction l with
  | nil => intro s i h; exact absurd h (Nat.not_lt_zero i)
  | cons x l' ih =>
      intro s i h
      rw [List.length_cons, List.range'_succ, List.zip_cons_cons]
      cases i with
      | zero =>
          rw [List.lookup_cons]
          simp
      | succ j =>
          rw [List.lookup_cons]
          have hne : ((s + (j + 1) == s) : Bool) = false := by
            simp only [beq_eq_false_iff_ne, ne_eq]
            omega
          rw [hne]
          have : s + (j + 1) = (s + 1) + j := by omega
          rw [this, ih (s + 1) j (Nat.lt_of_succ_lt_succ h)]
          simp

theorem secsList_eq_sortedSpec_of_sorted (df : List LoginEvent)
    (h : List.Sorted (fun a b => a.ts ≤ b.ts) df) :
    secsList df = secsListSortedSpec df := by
  have h1 : List.Pairwise (fun a b : LoginEvent => a.ts ≤ b.ts) (df.enum.map Prod.snd) := by
    rw [List.enum_map_snd]; exact h
  have hsorted : List.Sorted (fun a b : Nat × LoginEvent => a.2.ts ≤ b.2.ts) df.enum :=
    (@List.pairwise_map (Nat × LoginEvent) LoginEvent Prod.snd
      (fun a b => a.ts ≤ b.ts) df.enum).mp h1
  have hins : List.insertionSort (fun a b : Nat × LoginEvent => a.2.ts ≤ b.2.ts) df.enum
      = df.enum := List.Sorted.insertionSort_eq hsorted
  have hspec : secsListSortedSpec df = (List.range df.length).map (fun i =>
      (List.lookup i ((List.range df.length).zip (secsList df))).getD 0) := by
    simp only [secsListSortedSpec]
    rw [hins, List.enum_map_fst, List.enum_map_snd]
  rw [hspec]
  apply List.ext_getElem?
  intro n
  by_cases hn : n < df.length
  · have hn' : n < (secsList df).length := by rw [secsList_length]; exact hn
    obtain ⟨v, hv⟩ : ∃ v, (secsList df)[n]? = some v := by
      rw [List.getElem?_eq_getElem hn']
      exact ⟨_, rfl⟩
    have hlook : List.lookup n ((List.range df.length).zip (secsList df)) = some v := by
      have hl := lookup_range'_zip (secsList df) 0 n hn'
      rw [Nat.zero_add] at hl
      rw [List.range_eq_range',
        show df.length = (secsList df).length from (secsList_length df).symm, hl, hv]
    rw [List.getElem?_map, List.getElem?_range hn]
    simp only [Option.map_some']
    rw [hlook]
    simp only [Option.getD_some]
    exact hv
  · have h2 : (secsList df)[n]? = none := by
      rw [List.getElem?_eq_none]
      rw [secsList_length]; omega
    have h3 : ((List.range df.length).map (fun i =>
        (List.lookup i ((List.range df.length).zip (secsList df))).getD 0))[n]? = none := by
      rw [List.getElem?_eq_none]
      simp only [List.length_map, List.length_range]; omega
    rw [h2, h3]

/-- Two events of one user, arriving latest-first (arrival order is not
timestamp order): used to separate the source's arrival-order cursor pass from
the specification's sorted reading. -/
def evLate : LoginEvent := ⟨600, "u1", "d1", "ip1", "DE", 1⟩

/-- The earlier event of the pair (timestamp 0, arriving second). -/
def evEarly : LoginEvent := ⟨0, "u1", "d1", "ip1", "DE", 1⟩

/-- C1, counterexample.  The claim asserts that `add_features` first sorts a
working copy by timestamp, making `secs_since_last_success` independent of
arrival order and equal to the values of the timestamp-sorted batch.  On the
two-event batch `[evLate, evEarly]` (one user, timestamps 600 then 0) the
source's arrival-order pass produces `[0, -600]` — the second value is even
negative — while the timestamp-sorted computation re-projected to input order
produces `[600, 0]`.  The two disagree, refuting the claim. -/
theorem c1_counterexample :
    secsList [evLate, evEarly] = [0, -600] ∧
    secsListSortedSpec [evLate, evEarly] = [600, 0] ∧
    secsList [evLate, evEarly] ≠ secsListSortedSpec [evLate, evEarly] := by
  refine ⟨by decide, by decide, by decide⟩

/-- C1, amended.  The source's `iterrows` pass folds the cursor over the rows
in arrival order (no sort is performed; the left merge preserves row order), so
the values agree with those of the timestamp-sorted batch exactly in the case
the batch is already sorted ascending by timestamp; they are not independent
of arrival order in general. -/
theorem c1_theorem (df : List LoginEvent)
    (h : List.Sorted (fun a b => a.ts ≤ b.ts) df) :
    secsList df = secsListSortedSpec df :=
  secsList_eq_sortedSpec_of_sorted df h

/-- C1, witness: the amended statement at the already-sorted two-event batch. -/
theorem c1_witness :
    secsList [evEarly, evLate] = secsListSortedSpec [evEarly, evLate] :=
  c1_theorem [evEarly, evLate] (by decide)

/-- Concrete witness data for the cursor properties: a success of user u1 at
timestamp 10. -/
def evS1 : LoginEvent := ⟨10, "u1", "d1", "ip1", "DE", 1⟩

/-- Second witness event: a success of a different user at timestamp 25 (the
cursor of u1 must ignore it). -/
def evS2 : LoginEvent := ⟨25, "u9", "d1", "ip1", "DE", 1⟩

/-- Third witness event: failure at timestamp 30. -/
def evS3 : LoginEvent := ⟨30, "u1", "d1", "ip1", "DE", 0⟩

/-- C5: for each event, `secs_since_last_success` is 0 when no success of the
event's user was observed earlier in the pass, and `current_ts − last_success_ts`
for the most recent prior success of that user otherwise; the per-user cursor
after the event equals the event's timestamp exactly when the event itself is
successful, and is otherwise unchanged.  (The pass visits rows in the stored
order of the frame; consecutive successes of one user therefore yield
`t2 − t1` on the second one.) -/
theorem c5_theorem (df : List LoginEvent) (i : Nat) (e : LoginEvent)
    (he : df[i]? = some e) :
    (lastSuccessTs (df.take i) e.user = none → (secsList df)[i]? = some 0) ∧
    (∀ t, lastSuccessTs (df.take i) e.user = some t →
      (secsList df)[i]? = some (e.ts - t)) ∧
    (∀ u, foldState (fun _ => none) (df.take (i + 1)) u =
      if e.success = 1 ∧ u = e.user then some e.ts
      else foldState (fun _ => none) (df.take i) u) := by
  have hchar := secsList_getElem? df i e he
  refine ⟨?_, ?_, ?_⟩
  · intro hnone
    rw [hchar, hnone]
  · intro t ht
    rw [hchar, ht]
  · intro u
    have htake : df.take (i + 1) = df.take i ++ [e] := by
      rw [List.take_succ, he]
      rfl
    rw [htake, foldState_append]
    have hfold : foldState (foldState (fun _ => none) (df.take i)) [e] u
        = updState (foldState (fun _ => none) (df.take i)) e u := rfl
    rw [hfold]
    by_cases hs : e.success = 1
    · by_cases hu : u = e.user
      · simp [updState, hs, hu]
      · simp [updState, hs, hu]
    · have hns : ¬ (e.success = 1 ∧ u = e.user) := fun hc => hs hc.1
      simp [updState, hs, hns]

/-- C5, witness: on the batch `[evS1, evS2, evS3]` the third event (user u1,
failure at 30) gets value `30 − 10`, its most recent prior success of u1 being
at 10. -/
theorem c5_witness : (secsList [evS1, evS2, evS3])[2]? = some 20 :=
  (c5_theorem [evS1, evS2, evS3] 2 evS3 (by decide)).2.1 10 (by decide)

/-!
Helper lemmas for the combiner and the modelled engine.
-/

theorem detect_anomalies_ok_eq (α : Type) [LinearOrderedField α] [FloorRing α]
    (engine : List (List ℚ) → List α) (df_feat : List FeatRow) (c : ℚ)
    (out : List (OutRow α))
    (hok : detect_anomalies α engine df_feat c = Except.ok out) :
    out = (df_feat.zip (engine (df_feat.map featVec))).map (fun p =>
      ({ feat := p.1
         anomaly_score := p.2
         ml_flag := if quantileLinear (engine (df_feat.map featVec))
             (((1 : ℚ) - c : ℚ) : α) ≤ p.2 then 1 else 0
         rule_flag := ruleFlag p.1
         final_flag := if (if quantileLinear (engine (df_feat.map featVec))
             (((1 : ℚ) - c : ℚ) : α) ≤ p.2 then 1 else 0) = 1 ∨ ruleFlag p.1 = 1
           then 1 else 0 } : OutRow α)) := by
  rw [detect_anomalies] at hok
  by_cases h1 : ¬ (0 < c ∧ c ≤ 1 / 2)
  · rw [if_pos h1] at hok; exact absurd hok (by simp)
  · rw [if_neg h1] at hok
    by_cases h2 : df_feat.length = 0
    · rw [if_pos h2] at hok; exact absurd hok (by simp)
    · rw [if_neg h2] at hok
      exact (Except.ok.inj hok).symm

theorem harmonicNum_ge_one (n : Nat) (hn : 1 ≤ n) : (1 : ℚ) ≤ harmonicNum n := by
  induction n with
  | zero => omega
  | succ m ih =>
      rcases Nat.eq_zero_or_pos m with hm | hm
      · subst hm
        norm_num [harmonicNum]
      · have h1 := ih hm
        have h2 : (0 : ℚ) < 1 / ((m : ℚ) + 1) := by positivity
        have h3 : harmonicNum (m + 1) = harmonicNum m + 1 / ((m : ℚ) + 1) := by
          rfl
        rw [h3]
        linarith

theorem cFactor_pos (m : Nat) (hm : 2 ≤ m) : 0 < cFactor m := by
  rw [cFactor, if_neg (by omega)]
  have hH : (1 : ℚ) ≤ harmonicNum (m - 1) := harmonicNum_ge_one (m - 1) (by omega)
  have hmpos : (0 : ℚ) < (m : ℚ) := by
    have : 0 < m := by omega
    exact_mod_cast this
  have hfrac : ((m : ℚ) - 1) / (m : ℚ) < 1 := by
    rw [div_lt_one hmpos]; linarith
  have h1 : 2 * ((m : ℚ) - 1) / (m : ℚ) < 2 := by
    calc 2 * ((m : ℚ) - 1) / (m : ℚ) = 2 * (((m : ℚ) - 1) / (m : ℚ)) := by ring
    _ < 2 * 1 := by linarith
    _ = 2 := by ring
  linarith

theorem cFactor_nonneg (m : Nat) : 0 ≤ cFactor m := by
  rcases le_or_lt m 1 with h | h
  · rw [cFactor, if_pos h]
  · exact le_of_lt (cFactor_pos m h)

theorem pathLength_nonneg (v : List ℚ) (t : ITree) : 0 ≤ pathLength v t := by
  induction t with
  | leaf m => exact cFactor_nonneg m
  | node j th l r ihl ihr =>
      simp only [pathLength]
      by_cases hc : featAt v j < th
      · rw [if_pos hc]; linarith
      · rw [if_neg hc]; linarith

theorem avgPath_nonneg (f : Forest) (v : List ℚ) : 0 ≤ avgPath f v := by
  rw [avgPath]
  apply div_nonneg
  · apply List.sum_nonneg
    intro x hx
    rcases List.mem_map.mp hx with ⟨t, _, rfl⟩
    exact pathLength_nonneg v t
  · exact Nat.cast_nonneg _

theorem fitForest_ok (vectors : List (List ℚ)) (tc ψ seed : Nat) (f : Forest)
    (h : fitForest vectors tc ψ seed = Except.ok f) :
    2 ≤ ψ ∧ ψ ≤ vectors.length ∧ 1 ≤ tc ∧ f.psi = ψ := by
  rw [fitForest] at h
  by_cases hc : ψ < 2 ∨ vectors.length < ψ ∨ tc < 1
  · rw [if_pos hc] at h; exact absurd h (by simp)
  · rw [if_neg hc] at h
    push_neg at hc
    obtain ⟨h1, h2, h3⟩ := hc
    have hf := Except.ok.inj h
    refine ⟨by omega, by omega, by omega, ?_⟩
    rw [← hf]

theorem map_comp_snd_zip {γ β δ : Type} (l₁ : List γ) (l₂ : List β)
    (F : γ × β → δ) (pr : δ → β) (hpr : ∀ p, pr (F p) = p.2)
    (h : l₂.length ≤ l₁.length) : ((l₁.zip l₂).map F).map pr = l₂ := by
  rw [List.map_map, show (pr ∘ F) = Prod.snd from funext hpr,
    List.map_snd_zip l₁ l₂ h]

theorem map_comp_fst_zip {γ β δ : Type} (l₁ : List γ) (l₂ : List β)
    (F : γ × β → δ) (pr : δ → γ) (hpr : ∀ p, pr (F p) = p.1)
    (h : l₁.length ≤ l₂.length) : ((l₁.zip l₂).map F).map pr = l₁ := by
  rw [List.map_map, show (pr ∘ F) = Prod.fst from funext hpr,
    List.map_fst_zip l₁ l₂ h]

/-- A quiet enriched row (no failures, one ip) used as witness data. -/
def featA : FeatRow := ⟨evS1, 0, 0, 1, 0, 1, 1, 1, 0, 1, 1⟩

/-- A second quiet enriched row used as witness data. -/
def featB : FeatRow := ⟨evS3, 0, 0, 1, 1, 1, 1, 1, 0, 1, 1⟩

/-- An engine stub returning a fixed score list, for witness batches. -/
def constEngine (x : List ℚ) : List (List ℚ) → List ℚ := fun _ => x

/-- C2, counterexample.  The claim asserts that scoring succeeds for every
contamination rate in `(0, 1)` on a non-empty batch.  At `c = 7/10` (inside
`(0, 1)`) with a one-row batch, `detect_anomalies` fails: the underlying
library restricts a numeric contamination to `(0, 0.5]` and raises before any
output exists. -/
theorem c2_counterexample :
    ((0 : ℚ) < 7 / 10 ∧ (7 : ℚ) / 10 < 1 ∧ ([featA] : List FeatRow) ≠ []) ∧
    detect_anomalies ℚ (constEngine [1]) [featA] (7 / 10)
      = Except.error PipelineError.invalidParameter := by
  exact ⟨by with_unfolding_all decide, by with_unfolding_all rfl⟩

/-- C2, amended.  `detect_anomalies` fails — with the underlying library's
invalid-parameter or empty-sample error, the repository defining no
`InvalidConfiguration` of its own — exactly when the contamination rate lies
outside `(0, 1/2]` or the batch is empty; it succeeds precisely for
contamination in `(0, 1/2]` on a non-empty batch.  In particular it still
fails for every `c ≤ 0`, `c ≥ 1` and for `N = 0` as claimed, but the claimed
success region `(0, 1)` shrinks to `(0, 1/2]`. -/
theorem c2_theorem (α : Type) [LinearOrderedField α] [FloorRing α]
    (engine : List (List ℚ) → List α) (df_feat : List FeatRow) (c : ℚ) :
    (∃ out, detect_anomalies α engine df_feat c = Except.ok out) ↔
      (0 < c ∧ c ≤ 1 / 2 ∧ df_feat ≠ []) := by
  constructor
  · rintro ⟨out, hout⟩
    by_cases h1 : ¬ (0 < c ∧ c ≤ 1 / 2)
    · rw [detect_anomalies, if_pos h1] at hout
      exact absurd hout (by simp)
    · have h1' := not_not.mp h1
      by_cases h2 : df_feat.length = 0
      · rw [detect_anomalies, if_neg h1, if_pos h2] at hout
        exact absurd hout (by simp)
      · exact ⟨h1'.1, h1'.2, fun hnil => h2 (by rw [hnil]; rfl)⟩
  · rintro ⟨hc1, hc2, hne⟩
    have h1 : ¬ ¬ (0 < c ∧ c ≤ 1 / 2) := not_not.mpr ⟨hc1, hc2⟩
    have h2 : ¬ df_feat.length = 0 := by
      intro h0
      exact hne (List.length_eq_zero.mp h0)
    exact ⟨_, by rw [detect_anomalies, if_neg h1, if_neg h2]⟩

/-- C2, witness: the amended statement admits a success at `c = 1/4` on a
one-row batch. -/
theorem c2_witness :
    ∃ out, detect_anomalies ℚ (constEngine [1]) [featA] (1 / 4) = Except.ok out :=
  (c2_theorem ℚ (constEngine [1]) [featA] (1 / 4)).mpr (by with_unfolding_all decide)

/-- C3: on every successful run, the threshold is the linear-interpolation
`(1 − c)` quantile of the anomaly-score list, `ml_flag = 1` exactly when the
row's score is ≥ the threshold, and `final_flag = 1` exactly when `ml_flag` or
`rule_flag` is 1, for every output row.  (The engine-length hypothesis states
the library contract of one score per vector.) -/
theorem c3_theorem (α : Type) [LinearOrderedField α] [FloorRing α]
    (engine : List (List ℚ) → List α) (df_feat : List FeatRow) (c : ℚ)
    (out : List (OutRow α))
    (hok : detect_anomalies α engine df_feat c = Except.ok out)
    (hlen : (engine (df_feat.map featVec)).length = df_feat.length) :
    out.map (fun o => o.anomaly_score) = engine (df_feat.map featVec) ∧
    ∀ o ∈ out,
      (o.ml_flag = 1 ↔
        quantileLinear (out.map (fun o2 => o2.anomaly_score)) (((1 : ℚ) - c : ℚ) : α)
          ≤ o.anomaly_score) ∧
      (o.final_flag = 1 ↔ (o.ml_flag = 1 ∨ o.rule_flag = 1)) := by
  have hout := detect_anomalies_ok_eq α engine df_feat c out hok
  have hmap : out.map (fun o => o.anomaly_score) = engine (df_feat.map featVec) := by
    rw [hout]
    exact map_comp_snd_zip _ _ _ _ (fun p => rfl) (le_of_eq hlen)
  refine ⟨hmap, ?_⟩
  intro o ho
  rw [hout] at ho
  rcases List.mem_map.mp ho with ⟨p, hp, rfl⟩
  rw [hmap]
  constructor
  · by_cases hth : quantileLinear (engine (df_feat.map featVec))
        (((1 : ℚ) - c : ℚ) : α) ≤ p.2
    · simp [hth]
    · simp [hth]
  · by_cases hml : (if quantileLinear (engine (df_feat.map featVec))
        (((1 : ℚ) - c : ℚ) : α) ≤ p.2 then (1 : Nat) else 0) = 1 ∨ ruleFlag p.1 = 1
    · rw [if_pos hml]
      exact ⟨fun _ => hml, fun _ => rfl⟩
    · rw [if_neg hml]
      exact ⟨fun h0 => (Nat.zero_ne_one h0).elim, fun hc => absurd hc hml⟩

/-- C3, witness: the flag relations at a concrete two-row batch with scores
`[0, 1]` and contamination `1/2` (threshold `1/2`). -/
theorem c3_witness :
    ([⟨featA, 0, 0, 0, 0⟩, ⟨featB, 1, 1, 0, 1⟩] : List (OutRow ℚ)).map
        (fun o => o.anomaly_score)
      = constEngine [0, 1] ([featA, featB].map featVec) :=
  (c3_theorem ℚ (constEngine [0, 1]) [featA, featB] (1 / 2)
    [⟨featA, 0, 0, 0, 0⟩, ⟨featB, 1, 1, 0, 1⟩]
    (by with_unfolding_all rfl) (by with_unfolding_all rfl)).1

/-- Field values of one assembled feature row, all definitional. -/
theorem mkFeatRow_fields (df : List LoginEvent) (e : LoginEvent) (s : Int) :
    (mkFeatRow df e s).ev = e ∧
    (mkFeatRow df e s).minute = minuteFloor e.ts ∧
    (mkFeatRow df e s).attempts = (windowRows df e.user (minuteFloor e.ts)).length ∧
    (mkFeatRow df e s).fail_ratio = 1 - sumSuccess (windowRows df e.user (minuteFloor e.ts)) /
      ((windowRows df e.user (minuteFloor e.ts)).length : ℚ) ∧
    (mkFeatRow df e s).uniq_ips
      = ((windowRows df e.user (minuteFloor e.ts)).map LoginEvent.ip).dedup.length ∧
    (mkFeatRow df e s).uniq_devices
      = ((windowRows df e.user (minuteFloor e.ts)).map LoginEvent.device).dedup.length ∧
    (mkFeatRow df e s).uniq_countries
      = ((windowRows df e.user (minuteFloor e.ts)).map LoginEvent.country).dedup.length :=
  ⟨rfl, rfl, rfl, rfl, rfl, rfl, rfl⟩

/-- C4: any two rows of one batch with the same user and the same
floor-to-minute timestamp receive identical attempts, fail_ratio, uniq_ips,
uniq_devices and uniq_countries; attempts counts the events of the
`(user, minute)` window, fail_ratio is `1 − mean(success)` over the window,
and each uniq field counts distinct values within the window only. -/
theorem c4_theorem (df : List LoginEvent) (i j : Nat) (ri rj : FeatRow)
    (hri : (add_features df)[i]? = some ri) (hrj : (add_features df)[j]? = some rj)
    (huser : ri.ev.user = rj.ev.user)
    (hmin : minuteFloor ri.ev.ts = minuteFloor rj.ev.ts) :
    (ri.attempts = rj.attempts ∧ ri.fail_ratio = rj.fail_ratio ∧
      ri.uniq_ips = rj.uniq_ips ∧ ri.uniq_devices = rj.uniq_devices ∧
      ri.uniq_countries = rj.uniq_countries) ∧
    (ri.minute = minuteFloor ri.ev.ts ∧
      ri.attempts = (windowRows df ri.ev.user ri.minute).length ∧
      ri.fail_ratio = 1 - sumSuccess (windowRows df ri.ev.user ri.minute) /
        ((windowRows df ri.ev.user ri.minute).length : ℚ) ∧
      ri.uniq_ips = ((windowRows df ri.ev.user ri.minute).map LoginEvent.ip).dedup.length ∧
      ri.uniq_devices
        = ((windowRows df ri.ev.user ri.minute).map LoginEvent.device).dedup.length ∧
      ri.uniq_countries
        = ((windowRows df ri.ev.user ri.minute).map LoginEvent.country).dedup.length) := by
  obtain ⟨e1, s1, he1, hs1, hr1⟩ := add_features_shape df i ri hri
  obtain ⟨e2, s2, he2, hs2, hr2⟩ := add_features_shape df j rj hrj
  subst hr1
  subst hr2
  obtain ⟨hev1, hm1, ha1, hf1, hip1, hd1, hc1⟩ := mkFeatRow_fields df e1 s1
  obtain ⟨hev2, hm2, ha2, hf2, hip2, hd2, hc2⟩ := mkFeatRow_fields df e2 s2
  rw [hev1, hev2] at huser hmin
  constructor
  · refine ⟨?_, ?_, ?_, ?_, ?_⟩
    · rw [ha1, ha2, huser, hmin]
    · rw [hf1, hf2, huser, hmin]
    · rw [hip1, hip2, huser, hmin]
    · rw [hd1, hd2, huser, hmin]
    · rw [hc1, hc2, huser, hmin]
  · rw [hev1, hm1]
    exact ⟨rfl, ha1, hf1, hip1, hd1, hc1⟩

/-- Two events of one user in the same minute window (timestamps 60 and 70),
with different ips and devices, as witness data for the window aggregates. -/
def evW1 : LoginEvent := ⟨60, "u2", "dA", "ipA", "DE", 0⟩

/-- The second event of the shared minute window. -/
def evW2 : LoginEvent := ⟨70, "u2", "dB", "ipB", "DE", 1⟩

/-- The two-event single-window witness batch. -/
def dfW : List LoginEvent := [evW1, evW2]

/-- C4, witness: both rows of the shared window report the same attempts. -/
theorem c4_witness :
    (mkFeatRow dfW evW1 0).attempts = (mkFeatRow dfW evW2 0).attempts :=
  (c4_theorem dfW 0 1 (mkFeatRow dfW evW1 0) (mkFeatRow dfW evW2 0)
    (by with_unfolding_all rfl) (by with_unfolding_all rfl)
    (by decide) (by decide)).1.1

/-- C6: a row's rarity flags compare whole-batch pair counts with 3 —
`rare_country_for_user = 1` exactly when the `(user, country)` pair of the row
occurs fewer than 3 times in the entire batch, and likewise for
`(user, device)`; the counts range over the full batch, not a minute window. -/
theorem c6_theorem (df : List LoginEvent) (i : Nat) (r : FeatRow)
    (h : (add_features df)[i]? = some r) :
    (r.rare_country_for_user = 1 ↔ ucCount df r.ev.user r.ev.country < 3) ∧
    (r.rare_device_for_user = 1 ↔ udCount df r.ev.user r.ev.device < 3) ∧
    ucCount df r.ev.user r.ev.country
      = (df.filter (fun e => decide (e.user = r.ev.user ∧ e.country = r.ev.country))).length ∧
    udCount df r.ev.user r.ev.device
      = (df.filter (fun e => decide (e.user = r.ev.user ∧ e.device = r.ev.device))).length := by
  obtain ⟨e, s, he, hs, hr⟩ := add_features_shape df i r h
  subst hr
  have hev : (mkFeatRow df e s).ev = e := rfl
  rw [hev]
  refine ⟨?_, ?_, rfl, rfl⟩
  · have hrc : (mkFeatRow df e s).rare_country_for_user
        = if ucCount df e.user e.country < 3 then 1 else 0 := rfl
    rw [hrc]
    by_cases hc : ucCount df e.user e.country < 3
    · rw [if_pos hc]
      exact ⟨fun _ => hc, fun _ => rfl⟩
    · rw [if_neg hc]
      exact ⟨fun h0 => (Nat.zero_ne_one h0).elim, fun hcc => absurd hcc hc⟩
  · have hrd : (mkFeatRow df e s).rare_device_for_user
        = if udCount df e.user e.device < 3 then 1 else 0 := rfl
    rw [hrd]
    by_cases hc : udCount df e.user e.device < 3
    · rw [if_pos hc]
      exact ⟨fun _ => hc, fun _ => rfl⟩
    · rw [if_neg hc]
      exact ⟨fun h0 => (Nat.zero_ne_one h0).elim, fun hcc => absurd hcc hc⟩

/-- C6, witness: in the two-event batch every pair occurs at most twice, so
the country flag of the first row is raised. -/
theorem c6_witness : (mkFeatRow dfW evW1 0).rare_country_for_user = 1 :=
  ((c6_theorem dfW 0 (mkFeatRow dfW evW1 0) (by with_unfolding_all rfl)).1).mpr
    (by decide)

/-- C7: `rule_flag = 1` exactly when `fail_ratio > 0.8` and `uniq_ips ≥ 5`;
the rule is a pure function of those two window-aggregate fields of the single
row, and inside `detect_anomalies` each output row's `rule_flag` is that
function of its own feature row, regardless of the engine's scores. -/
theorem c7_theorem :
    (∀ r : FeatRow, ruleFlag r = 1 ↔ (4 / 5 < r.fail_ratio ∧ 5 ≤ r.uniq_ips)) ∧
    (∀ r s : FeatRow, r.fail_ratio = s.fail_ratio → r.uniq_ips = s.uniq_ips →
      ruleFlag r = ruleFlag s) ∧
    (∀ (engine : List (List ℚ) → List ℚ) (df_feat : List FeatRow) (c : ℚ)
        (out : List (OutRow ℚ)) (i : Nat) (o : OutRow ℚ),
      detect_anomalies ℚ engine df_feat c = Except.ok out → out[i]? = some o →
      o.rule_flag = ruleFlag o.feat) := by
  refine ⟨?_, ?_, ?_⟩
  · intro r
    rw [ruleFlag]
    by_cases hc : 4 / 5 < r.fail_ratio ∧ 5 ≤ r.uniq_ips
    · rw [if_pos hc]
      exact ⟨fun _ => hc, fun _ => rfl⟩
    · rw [if_neg hc]
      exact ⟨fun h0 => (Nat.zero_ne_one h0).elim, fun hcc => absurd hcc hc⟩
  · intro r s h1 h2
    rw [ruleFlag, ruleFlag, h1, h2]
  · intro engine df_feat c out i o hok hio
    have hout := detect_anomalies_ok_eq ℚ engine df_feat c out hok
    rw [hout, List.getElem?_map] at hio
    rcases Option.map_eq_some'.mp hio with ⟨p, _, hgp⟩
    rw [← hgp]

/-- C7, witness: a row with `fail_ratio = 9/10` and 6 distinct ips trips the
rule. -/
theorem c7_witness : ruleFlag ⟨evW1, 0, 0, 10, 9 / 10, 6, 1, 1, 0, 0, 0⟩ = 1 :=
  (c7_theorem.1 ⟨evW1, 0, 0, 10, 9 / 10, 6, 1, 1, 0, 0, 0⟩).mpr
    (by with_unfolding_all decide)

/-- C9: for every valid configuration, the modelled engine returns exactly one
score per input vector, in input order, each score being
`2 ^ (-avg_path_length / c(subsample_size))` and lying in `(0, 1]`. -/
theorem c9_theorem (vectors : List (List ℚ)) (tc ψ seed : Nat) (f : Forest)
    (h : fitForest vectors tc ψ seed = Except.ok f) :
    (scoreForest f vectors).length = vectors.length ∧
    scoreForest f vectors = vectors.map (fun v =>
      (2 : ℝ) ^ (-(((avgPath f v) / (cFactor f.psi) : ℚ) : ℝ))) ∧
    ∀ sc ∈ scoreForest f vectors, 0 < sc ∧ sc ≤ 1 := by
  obtain ⟨hψ2, _, _, hpsi⟩ := fitForest_ok vectors tc ψ seed f h
  refine ⟨by rw [scoreForest, List.length_map], rfl, ?_⟩
  intro sc hsc
  rcases List.mem_map.mp hsc with ⟨v, _, rfl⟩
  have hc : 0 < cFactor f.psi := by rw [hpsi]; exact cFactor_pos ψ hψ2
  have ha : 0 ≤ avgPath f v := avgPath_nonneg f v
  have hq : 0 ≤ avgPath f v / cFactor f.psi := div_nonneg ha (le_of_lt hc)
  have hexp : (-(((avgPath f v) / (cFactor f.psi) : ℚ) : ℝ)) ≤ 0 := by
    have hcast : (0 : ℝ) ≤ (((avgPath f v) / (cFactor f.psi) : ℚ) : ℝ) := by
      exact_mod_cast hq
    linarith
  constructor
  · exact Real.rpow_pos_of_pos (by norm_num) _
  · exact Real.rpow_le_one_of_one_le_of_nonpos (by norm_num) hexp

/-- C9, witness: the two-vector configuration with one tree and subsample 2;
both coordinates are equal, so the single tree is one leaf of two points. -/
theorem c9_witness :
    (scoreForest ⟨[ITree.leaf 2], 2⟩ [[0], [0]]).length = 2 :=
  (c9_theorem [[0], [0]] 1 2 0 ⟨[ITree.leaf 2], 2⟩ (by with_unfolding_all rfl)).1

/-- C8: the fit-and-score pipeline (`n_estimators=300`, default subsample,
`random_state=seed`) is a pure function of the feature rows, the contamination
rate and the seed: two runs with identical arguments yield identical anomaly
scores and identical ml, rule and final flags.  In the model every random draw
of subsampling, feature choice and threshold choice is derived from the single
seed argument, so determinism is by construction. -/
theorem c8_theorem (df_feat : List FeatRow) (c : ℚ) (seed : Nat)
    (r1 r2 : Except PipelineError (List (OutRow ℝ)))
    (h1 : r1 = detect_anomalies_run df_feat c seed)
    (h2 : r2 = detect_anomalies_run df_feat c seed) :
    r1.map (fun out => out.map (fun o => o.anomaly_score))
      = r2.map (fun out => out.map (fun o => o.anomaly_score)) ∧
    r1.map (fun out => out.map (fun o => o.ml_flag))
      = r2.map (fun out => out.map (fun o => o.ml_flag)) ∧
    r1.map (fun out => out.map (fun o => o.rule_flag))
      = r2.map (fun out => out.map (fun o => o.rule_flag)) ∧
    r1.map (fun out => out.map (fun o => o.final_flag))
      = r2.map (fun out => out.map (fun o => o.final_flag)) := by
  subst h1
  subst h2
  exact ⟨rfl, rfl, rfl, rfl⟩

/-- C8, witness: the determinism statement at a concrete run. -/
theorem c8_witness :
    (detect_anomalies_run [featA] (1 / 50) 7).map
        (fun out => out.map (fun o => o.anomaly_score))
      = (detect_anomalies_run [featA] (1 / 50) 7).map
        (fun out => out.map (fun o => o.anomaly_score)) :=
  (c8_theorem [featA] (1 / 50) 7 _ _ rfl rfl).1

/-- C10: neither operation mutates the caller's rows — `add_features` and
`detect_anomalies` both work on a copy (`df.copy()` at lines 62 and 135), and
every input row is carried unchanged, in order, inside the output: projecting
the enriched rows back to the input columns recovers the caller's data
exactly. -/
theorem c10_theorem (df : List LoginEvent) (α : Type) [LinearOrderedField α]
    [FloorRing α] (engine : List (List ℚ) → List α) (df_feat : List FeatRow)
    (c : ℚ) (out : List (OutRow α))
    (hok : detect_anomalies α engine df_feat c = Except.ok out)
    (hlen : (engine (df_feat.map featVec)).length = df_feat.length) :
    (add_features df).map FeatRow.ev = df ∧ out.map (fun o => o.feat) = df_feat := by
  refine ⟨add_features_map_ev df, ?_⟩
  rw [detect_anomalies_ok_eq α engine df_feat c out hok]
  exact map_comp_fst_zip _ _ _ _ (fun p => rfl) (le_of_eq hlen.symm)

/-- C10, witness: the projection identities at a concrete batch and run. -/
theorem c10_witness :
    (add_features dfW).map FeatRow.ev = dfW ∧
    ([⟨featA, 1, 1, 0, 1⟩] : List (OutRow ℚ)).map (fun o => o.feat) = [featA] :=
  c10_theorem dfW ℚ (constEngine [1]) [featA] (1 / 2) [⟨featA, 1, 1, 0, 1⟩]
    (by with_unfolding_all rfl) (by with_unfolding_all rfl)
